import Mathlib

/-!
# Verification of the distil-primitives forest modeling engine

Shallow embedding of `src/distil/modeling/forest.py` (the `AnyForest`
model factory and the `ForestCV` ensemble orchestrator) together with the
collaborator functions it calls.  Python floats that carry metric scores
are modelled as rationals; numpy arrays as lists; Python dicts (which are
insertion-ordered) as association lists with an insertion-ordered update
operation; exceptions as `Except String`.

The sklearn training itself is an external collaborator: a fitted sklearn
model is represented by its observable fields (`oob_prediction_`,
`oob_decision_function_`, `classes_`), and the composite
"construct-fit-score" step of the grid search by an oracle
`Params → ℚ` giving the OOB fitness obtained for a parameter dictionary.
-/

namespace Distil

/-- A Python value that can appear in a hyperparameter dictionary
(`None`, ints, strings such as `"RandomForest"`/`"balanced"`, bools such
as `bootstrap=True`). -/
inductive PVal where
  | none : PVal
  | int : Int → PVal
  | str : String → PVal
  | bool : Bool → PVal
deriving DecidableEq, Repr

/-- A Python dict of hyperparameters, insertion-ordered. -/
abbrev Params := List (String × PVal)

/-- Python `d[k] = v` on an insertion-ordered dict: replace the value in
place if the key is present, else append the pair at the end. -/
def setKey (p : Params) (k : String) (v : PVal) : Params :=
  if p.any (fun kv => kv.1 = k) then
    p.map (fun kv => if kv.1 = k then (k, v) else kv)
  else
    p ++ [(k, v)]

/-- Python `d[k]` / `d.get(k)`: the value at the first occurrence of `k`. -/
def getKey (p : Params) (k : String) : Option PVal :=
  (p.find? (fun kv => kv.1 = k)).map (fun kv => kv.2)

theorem getKey_setKey_self (p : Params) (k : String) (v : PVal) :
    getKey (setKey p k v) k = some v := by
  unfold setKey getKey
  by_cases h : p.any (fun kv => kv.1 = k)
  · simp only [h, if_true]
    induction p with
    | nil => simp at h
    | cons kv rest ih =>
      by_cases hk : kv.1 = k
      · simp [List.find?, hk]
      · have hrest : rest.any (fun kv => kv.1 = k) := by
          simpa [List.any_cons, hk] using h
        simp only [List.map_cons, if_neg hk, List.find?]
        rw [show (decide (kv.1 = k)) = false by simp [hk]]
        simpa using ih hrest
  · simp only [h, if_false]
    induction p with
    | nil => simp [List.find?]
    | cons kv rest ih =>
      simp only [List.any_cons, Bool.or_eq_true, decide_eq_true_eq, not_or] at h
      simp only [List.cons_append, List.find?]
      rw [show (decide (kv.1 = k)) = false by simp [h.1]]
      simp only [Bool.false_eq_true, if_false]
      exact ih (by simpa using h.2)

/-- Writing a key that none of the entries of `p` uses appends it. -/
theorem setKey_fresh (p : Params) (k : String) (v : PVal)
    (h : ∀ kv ∈ p, kv.1 ≠ k) : setKey p k v = p ++ [(k, v)] := by
  unfold setKey
  have : p.any (fun kv => kv.1 = k) = false := by
    simp only [List.any_eq_false, decide_eq_true_eq]
    exact h
  simp [this]

/-- Re-writing the same key with the same value is the identity once the
key sits at the end of an otherwise-fresh dict. -/
theorem setKey_append_self (p : Params) (k : String) (v : PVal)
    (h : ∀ kv ∈ p, kv.1 ≠ k) :
    setKey (p ++ [(k, v)]) k v = p ++ [(k, v)] := by
  unfold setKey
  have hany : (p ++ [(k, v)]).any (fun kv => kv.1 = k) = true := by
    simp [List.any_append]
  simp only [hany, if_true, List.map_append]
  congr 1
  · induction p with
    | nil => rfl
    | cons kv rest ih =>
      have h1 : kv.1 ≠ k := h kv (List.mem_cons_self kv rest)
      simp only [List.map_cons, if_neg h1]
      rw [ih (fun kv hkv => h kv (List.mem_cons_of_mem _ hkv)) (by simp [List.any_append])]
  · simp

/-- One evaluated grid point of `ForestCV._fit`:
`{"params": params, "fitness": oob_fitness}` as returned by
`ForestCV._eval_grid_point`. -/
structure GridResult where
  params : Params
  fitness : ℚ
deriving DecidableEq, Repr

instance : DecidableRel (fun (a b : GridResult) => a.fitness ≤ b.fitness) :=
  fun a b => inferInstanceAs (Decidable (a.fitness ≤ b.fitness))

/-- Embedding of `sorted(self.results, key=lambda x: x['fitness'])[-1]` from
`ForestCV._fit` (forest.py line 163).  Python's `sorted` is the stable
ascending sort, embedded as Mathlib's stable `insertionSort`; `[-1]` on a
possibly-empty list is `getLast?` (an empty list raises `IndexError`,
i.e. `none`). -/
def selectBest (results : List GridResult) : Option GridResult :=
  (List.insertionSort (fun a b => a.fitness ≤ b.fitness) results).getLast?

/-- Reference scan: keep the best-so-far, replacing it whenever a
later element has fitness at least as large, so ties go to the latest
element. -/
def lastMax : List GridResult → Option GridResult
  | [] => none
  | r :: rs =>
    match lastMax rs with
    | none => some r
    | some m => if m.fitness < r.fitness then some r else some m

theorem lastMax_isSome (r : GridResult) (rs : List GridResult) :
    ∃ m, lastMax (r :: rs) = some m := by
  unfold lastMax
  cases h : lastMax rs with
  | none => exact ⟨r, rfl⟩
  | some m =>
    by_cases hf : m.fitness < r.fitness
    · exact ⟨r, by simp [hf]⟩
    · exact ⟨m, by simp [hf]⟩

theorem lastMax_mem : ∀ (l : List GridResult) (m : GridResult),
    lastMax l = some m → m ∈ l := by
  intro l
  induction l with
  | nil => intro m h; simp [lastMax] at h
  | cons r rs ih =>
    intro m h
    unfold lastMax at h
    cases hrs : lastMax rs with
    | none => rw [hrs] at h; simp at h; simp [h]
    | some m2 =>
      rw [hrs] at h
      by_cases hf : m2.fitness < r.fitness
      · simp [hf] at h; simp [h]
      · simp [hf] at h
        exact List.mem_cons_of_mem r (ih m (h ▸ hrs))

theorem lastMax_max : ∀ (l : List GridResult) (m : GridResult),
    lastMax l = some m → ∀ b ∈ l, b.fitness ≤ m.fitness := by
  intro l
  induction l with
  | nil => intro m h; simp [lastMax] at h
  | cons r rs ih =>
    intro m h b hb
    unfold lastMax at h
    cases hrs : lastMax rs with
    | none =>
      rw [hrs] at h
      simp at h
      have : rs = [] := by
        cases rs with
        | nil => rfl
        | cons x xs => obtain ⟨m2, hm2⟩ := lastMax_isSome x xs; rw [hm2] at hrs; exact absurd hrs (by simp)
      subst this
      simp at hb
      simp [hb, h]
    | some m2 =>
      rw [hrs] at h
      rcases List.mem_cons.mp hb with hbr | hbrs
      · subst hbr
        by_cases hf : m2.fitness < b.fitness
        · simp [hf] at h; simp [h]
        · simp [hf] at h; rw [← h]; exact le_of_not_lt hf
      · have hle : b.fitness ≤ m2.fitness := ih m2 hrs b hbrs
        by_cases hf : m2.fitness < r.fitness
        · simp [hf] at h; rw [← h]; exact le_of_lt (lt_of_le_of_lt hle hf)
        · simp [hf] at h; rw [← h]; exact hle

/-- The scan `lastMax` picks the value at the last position achieving the
maximum: everything strictly after that position has strictly smaller
fitness. -/
theorem lastMax_lastIdx : ∀ (l : List GridResult) (m : GridResult),
    lastMax l = some m →
    ∃ k, ∃ hk : k < l.length, l.get ⟨k, hk⟩ = m ∧
      ∀ j, ∀ hj : j < l.length, k < j → (l.get ⟨j, hj⟩).fitness < m.fitness := by
  intro l
  induction l with
  | nil => intro m h; simp [lastMax] at h
  | cons r rs ih =>
    intro m h
    unfold lastMax at h
    cases hrs : lastMax rs with
    | none =>
      rw [hrs] at h
      simp at h
      have hnil : rs = [] := by
        cases rs with
        | nil => rfl
        | cons x xs => obtain ⟨m2, hm2⟩ := lastMax_isSome x xs; rw [hm2] at hrs; exact absurd hrs (by simp)
      subst hnil
      refine ⟨0, by simp, by simp [h], ?_⟩
      intro j hj hj0
      simp at hj
      omega
    | some m2 =>
      rw [hrs] at h
      by_cases hf : m2.fitness < r.fitness
      · simp [hf] at h
        refine ⟨0, by simp, by simp [h], ?_⟩
        intro j hj hj0
        cases j with
        | zero => omega
        | succ j0 =>
          have hjr : j0 < rs.length := by simpa using hj
          have := lastMax_max rs m2 hrs (rs.get ⟨j0, hjr⟩) (List.get_mem rs j0 hjr)
          simp only [List.get_cons_succ]
          rw [← h]
          exact lt_of_le_of_lt this hf
      · simp [hf] at h
        obtain ⟨k, hk, hget, hafter⟩ := ih m (h ▸ hrs)
        refine ⟨k + 1, by simpa using Nat.succ_lt_succ hk, by simpa using hget, ?_⟩
        intro j hj hkj
        cases j with
        | zero => omega
        | succ j0 =>
          have hjr : j0 < rs.length := by simpa using hj
          simp only [List.get_cons_succ]
          exact hafter j0 hjr (by omega)

theorem lastMax_eq_none (l : List GridResult) (h : lastMax l = none) : l = [] := by
  cases l with
  | nil => rfl
  | cons r rs =>
    obtain ⟨m, hm⟩ := lastMax_isSome r rs
    rw [hm] at h
    exact absurd h (by simp)

theorem getLast_orderedInsert (a : GridResult) :
    ∀ s : List GridResult,
    (List.orderedInsert (fun x y => x.fitness ≤ y.fitness) a s).getLast? =
      if s.any (fun b => a.fitness ≤ b.fitness) then s.getLast? else some a := by
  intro s
  induction s with
  | nil => simp [List.orderedInsert]
  | cons b t ih =>
    by_cases hab : a.fitness ≤ b.fitness
    · have hoi : List.orderedInsert (fun x y => x.fitness ≤ y.fitness) a (b :: t) =
        a :: b :: t := by
        simp [List.orderedInsert, hab]
      rw [hoi]
      have hany : (b :: t).any (fun x => a.fitness ≤ x.fitness) = true := by
        simp [List.any_cons, hab]
      rw [hany]
      simp
    · have : List.orderedInsert (fun x y => x.fitness ≤ y.fitness) a (b :: t) =
        b :: List.orderedInsert (fun x y => x.fitness ≤ y.fitness) a t := by
        simp [List.orderedInsert, hab]
      rw [this]
      have hne : List.orderedInsert (fun x y => x.fitness ≤ y.fitness) a t ≠ [] := by
        intro hc
        have := List.orderedInsert_length (fun x y => x.fitness ≤ y.fitness) t a
        rw [hc] at this
        simp at this
      cases hoi : List.orderedInsert (fun x y => x.fitness ≤ y.fitness) a t with
      | nil => exact absurd hoi hne
      | cons c u =>
        rw [List.getLast?_cons_cons]
        rw [← hoi, ih]
        by_cases hta : t.any (fun x => a.fitness ≤ x.fitness)
        · rw [hta]
          simp only [if_true]
          have htne : t ≠ [] := by
            intro hc; rw [hc] at hta; simp at hta
          have hany : (b :: t).any (fun x => a.fitness ≤ x.fitness) = true := by
            simp only [List.any_cons, Bool.or_eq_true]
            right; exact hta
          rw [hany]
          simp only [if_true]
          cases t with
          | nil => exact absurd rfl htne
          | cons d v => rw [List.getLast?_cons_cons]
        · have hta' : t.any (fun x => a.fitness ≤ x.fitness) = false := by
            simpa using hta
          rw [hta']
          have hany : (b :: t).any (fun x => a.fitness ≤ x.fitness) = false := by
            simp only [List.any_cons, Bool.or_eq_false_iff]
            exact ⟨by simpa using hab, hta'⟩
          rw [hany]
          simp

/-- The source's selection (stable ascending sort by fitness, then take
the last element) equals the "latest maximum" scan. -/
theorem selectBest_eq_lastMax : ∀ l : List GridResult, selectBest l = lastMax l := by
  intro l
  induction l with
  | nil => simp [selectBest, lastMax, List.insertionSort]
  | cons a l ih =>
    unfold selectBest at ih ⊢
    rw [show List.insertionSort (fun x y => x.fitness ≤ y.fitness) (a :: l) =
      List.orderedInsert (fun x y => x.fitness ≤ y.fitness) a
        (List.insertionSort (fun x y => x.fitness ≤ y.fitness) l) from rfl]
    rw [getLast_orderedInsert]
    cases hlm : lastMax l with
    | none =>
      have : l = [] := lastMax_eq_none l hlm
      subst this
      simp [lastMax, List.insertionSort]
    | some m =>
      have hperm := List.perm_insertionSort (fun x y => x.fitness ≤ y.fitness) l
      by_cases ham : a.fitness ≤ m.fitness
      · have hany : (List.insertionSort (fun x y => x.fitness ≤ y.fitness) l).any
            (fun b => a.fitness ≤ b.fitness) = true := by
          simp only [List.any_eq_true, decide_eq_true_eq]
          exact ⟨m, hperm.mem_iff.mpr (lastMax_mem l m hlm), ham⟩
        rw [hany]
        simp only [if_true]
        rw [ih, hlm]
        unfold lastMax
        rw [hlm]
        have : ¬ m.fitness < a.fitness := not_lt.mpr ham
        simp [this]
      · have hma : m.fitness < a.fitness := lt_of_not_le ham
        have hany : (List.insertionSort (fun x y => x.fitness ≤ y.fitness) l).any
            (fun b => a.fitness ≤ b.fitness) = false := by
          simp only [List.any_eq_false, decide_eq_true_eq]
          intro b hb
          have hbl : b ∈ l := hperm.mem_iff.mp hb
          have := lastMax_max l m hlm b hbl
          exact not_le.mpr (lt_of_le_of_lt this hma)
        rw [hany]
        simp only [Bool.false_eq_true, if_false]
        unfold lastMax
        rw [hlm]
        simp [hma]

/-- C1. For every grid search over a non-empty list of evaluated grid
points, the pair selected by `sorted(results, key=fitness)[-1]` achieves
the maximum fitness, and stands at the last grid position achieving that
maximum (every later point scores strictly lower), i.e. among ties at
the maximum the point enumerated last in grid order wins. -/
theorem selectBest_max_last_tie (results : List GridResult)
    (hne : results ≠ []) :
    ∃ best, selectBest results = some best ∧ best ∈ results ∧
      (∀ r ∈ results, r.fitness ≤ best.fitness) ∧
      ∃ k, ∃ hk : k < results.length, results.get ⟨k, hk⟩ = best ∧
        ∀ j, ∀ hj : j < results.length, k < j →
          (results.get ⟨j, hj⟩).fitness < best.fitness := by
  cases results with
  | nil => exact absurd rfl hne
  | cons r rs =>
    obtain ⟨m, hm⟩ := lastMax_isSome r rs
    refine ⟨m, ?_, lastMax_mem _ m hm, lastMax_max _ m hm, lastMax_lastIdx _ m hm⟩
    rw [selectBest_eq_lastMax]
    exact hm

/-- Witness for C1: the spec's two-point grid, point A at fitness 0.8
enumerated first, point B at fitness 0.9 enumerated second. -/
theorem selectBest_max_last_tie_witness :
    ([⟨[("n_estimators", PVal.int 32)], mkRat 8 10⟩,
      ⟨[("n_estimators", PVal.int 64)], mkRat 9 10⟩] : List GridResult) ≠ [] ∧
    (∃ best, selectBest [⟨[("n_estimators", PVal.int 32)], mkRat 8 10⟩,
        ⟨[("n_estimators", PVal.int 64)], mkRat 9 10⟩] = some best ∧
      best ∈ [⟨[("n_estimators", PVal.int 32)], mkRat 8 10⟩,
        ⟨[("n_estimators", PVal.int 64)], mkRat 9 10⟩] ∧
      (∀ r ∈ ([⟨[("n_estimators", PVal.int 32)], mkRat 8 10⟩,
        ⟨[("n_estimators", PVal.int 64)], mkRat 9 10⟩] : List GridResult),
        r.fitness ≤ best.fitness) ∧
      ∃ k, ∃ hk : k < ([⟨[("n_estimators", PVal.int 32)], mkRat 8 10⟩,
          ⟨[("n_estimators", PVal.int 64)], mkRat 9 10⟩] : List GridResult).length,
        ([⟨[("n_estimators", PVal.int 32)], mkRat 8 10⟩,
          ⟨[("n_estimators", PVal.int 64)], mkRat 9 10⟩] : List GridResult).get ⟨k, hk⟩ = best ∧
        ∀ j, ∀ hj : j < ([⟨[("n_estimators", PVal.int 32)], mkRat 8 10⟩,
            ⟨[("n_estimators", PVal.int 64)], mkRat 9 10⟩] : List GridResult).length,
          k < j →
          (([⟨[("n_estimators", PVal.int 32)], mkRat 8 10⟩,
            ⟨[("n_estimators", PVal.int 64)], mkRat 9 10⟩] : List GridResult).get
              ⟨j, hj⟩).fitness < best.fitness) :=
  ⟨by simp, selectBest_max_last_tie _ (by simp)⟩

/-- The spec's grid-selection example, concretely: the engine picks
point B's hyperparameters and its fitness 0.9. -/
example :
    selectBest [⟨[("n_estimators", PVal.int 32)], mkRat 8 10⟩,
      ⟨[("n_estimators", PVal.int 64)], mkRat 9 10⟩] =
    some ⟨[("n_estimators", PVal.int 64)], mkRat 9 10⟩ := by decide

/-- Enumeration order, not params content, breaks ties: with equal
fitness the later point wins. -/
example :
    selectBest [⟨[("a", PVal.int 1)], mkRat 1 2⟩, ⟨[("a", PVal.int 2)], mkRat 1 2⟩] =
    some ⟨[("a", PVal.int 2)], mkRat 1 2⟩ := by decide

/-- Embedding of `np.argmax` over a 1-D array: the index of the first occurrence of
the maximum (numpy documents that, in case of ties, the first occurrence
is returned).  On an empty list numpy raises; here the value `0` is
returned and callers guard for emptiness. -/
def argmaxIdx {α : Type} [LinearOrder α] : List α → Nat
  | [] => 0
  | [_] => 0
  | x :: y :: ys =>
    if x < (y :: ys).getD (argmaxIdx (y :: ys)) y then argmaxIdx (y :: ys) + 1 else 0

theorem argmaxIdx_lt {α : Type} [LinearOrder α] :
    ∀ l : List α, l ≠ [] → argmaxIdx l < l.length := by
  intro l
  induction l with
  | nil => intro h; exact absurd rfl h
  | cons x xs ih =>
    intro _
    cases xs with
    | nil => simp [argmaxIdx]
    | cons y ys =>
      rw [show argmaxIdx (x :: y :: ys) =
        if x < (y :: ys).getD (argmaxIdx (y :: ys)) y then argmaxIdx (y :: ys) + 1 else 0
        from rfl]
      by_cases hc : x < (y :: ys).getD (argmaxIdx (y :: ys)) y
      · simp only [hc, if_true]
        have := ih (by simp)
        simpa using Nat.succ_lt_succ this
      · rw [if_neg hc]
        simp

theorem getD_irrel {α : Type} (l : List α) (n : Nat) (d d' : α)
    (h : n < l.length) : l.getD n d = l.getD n d' := by
  rw [List.getD_eq_getElem l d h, List.getD_eq_getElem l d' h]

theorem argmaxIdx_max {α : Type} [LinearOrder α] (d : α) :
    ∀ (l : List α) (k : Nat), k < l.length →
      l.getD k d ≤ l.getD (argmaxIdx l) d := by
  intro l
  induction l with
  | nil => intro k hk; simp at hk
  | cons x xs ih =>
    intro k hk
    cases xs with
    | nil =>
      cases k with
      | zero => simp [argmaxIdx]
      | succ k0 => simp at hk
    | cons y ys =>
      have hj : argmaxIdx (y :: ys) < (y :: ys).length := argmaxIdx_lt _ (by simp)
      have hdf : (y :: ys).getD (argmaxIdx (y :: ys)) y =
          (y :: ys).getD (argmaxIdx (y :: ys)) d := getD_irrel _ _ _ _ hj
      rw [show argmaxIdx (x :: y :: ys) =
        if x < (y :: ys).getD (argmaxIdx (y :: ys)) y then argmaxIdx (y :: ys) + 1 else 0
        from rfl]
      by_cases hc : x < (y :: ys).getD (argmaxIdx (y :: ys)) y
      · simp only [hc, if_true]
        cases k with
        | zero =>
          simp only [List.getD_cons_zero, List.getD_cons_succ]
          rw [hdf] at hc
          exact le_of_lt hc
        | succ k0 =>
          simp only [List.getD_cons_succ]
          exact ih k0 (by simpa using hk)
      · simp only [hc, if_false]
        cases k with
        | zero => simp
        | succ k0 =>
          simp only [List.getD_cons_succ, List.getD_cons_zero]
          have h1 : (y :: ys).getD k0 d ≤ (y :: ys).getD (argmaxIdx (y :: ys)) d :=
            ih k0 (by simpa using hk)
          have h2 : (y :: ys).getD (argmaxIdx (y :: ys)) d ≤ x := by
            rw [← hdf]; exact le_of_not_lt hc
          exact le_trans h1 h2

theorem argmaxIdx_first {α : Type} [LinearOrder α] (d : α) :
    ∀ (l : List α) (k : Nat), k < argmaxIdx l →
      l.getD k d < l.getD (argmaxIdx l) d := by
  intro l
  induction l with
  | nil => intro k hk; simp [argmaxIdx] at hk
  | cons x xs ih =>
    intro k hk
    cases xs with
    | nil => simp [argmaxIdx] at hk
    | cons y ys =>
      have hj : argmaxIdx (y :: ys) < (y :: ys).length := argmaxIdx_lt _ (by simp)
      have hdf : (y :: ys).getD (argmaxIdx (y :: ys)) y =
          (y :: ys).getD (argmaxIdx (y :: ys)) d := getD_irrel _ _ _ _ hj
      rw [show argmaxIdx (x :: y :: ys) =
        if x < (y :: ys).getD (argmaxIdx (y :: ys)) y then argmaxIdx (y :: ys) + 1 else 0
        from rfl] at hk ⊢
      by_cases hc : x < (y :: ys).getD (argmaxIdx (y :: ys)) y
      · simp only [hc, if_true] at hk ⊢
        cases k with
        | zero =>
          simp only [List.getD_cons_zero, List.getD_cons_succ]
          rw [hdf] at hc
          exact hc
        | succ k0 =>
          simp only [List.getD_cons_succ]
          exact ih k0 (by omega)
      · simp only [hc, if_false] at hk
        omega

/-- Embedding of `pd.unique` over a flattened array: the unique values in first-seen
(order-of-appearance) order, as pandas documents. -/
def pdUnique {α : Type} [DecidableEq α] (l : List α) : List α :=
  l.foldl (fun acc a => if a ∈ acc then acc else acc ++ [a]) []

theorem pdUnique_foldl_le {α : Type} [DecidableEq α] :
    ∀ (l acc : List α),
      acc.length ≤ (l.foldl (fun acc a => if a ∈ acc then acc else acc ++ [a]) acc).length := by
  intro l
  induction l with
  | nil => intro acc; simp
  | cons a l ih =>
    intro acc
    rw [List.foldl_cons]
    refine le_trans ?_ (ih (if a ∈ acc then acc else acc ++ [a]))
    by_cases h : a ∈ acc
    · simp [h]
    · simp [h]

theorem pdUnique_ne_nil {α : Type} [DecidableEq α] (l : List α) (h : l ≠ []) :
    pdUnique l ≠ [] := by
  cases l with
  | nil => exact absurd rfl h
  | cons a l' =>
    unfold pdUnique
    rw [List.foldl_cons]
    have h0 : (if a ∈ ([] : List α) then ([] : List α) else [] ++ [a]) = [a] := by simp
    rw [h0]
    intro hc
    have := pdUnique_foldl_le l' [a]
    rw [hc] at this
    simp at this

/-- One row of the vote: the counts of each label (in label order) among
this row's votes, resolved by `np.argmax`-style first-maximum selection,
so the winning label is the one with the highest count, and among tied
labels the one earliest in `labels`. -/
def rowVote {L : Type} [DecidableEq L] (votes : List L) (labels : List L) : Option L :=
  labels.get? (argmaxIdx (labels.map (fun lab => votes.count lab)))

/-- Modelled from the spec: `tiebreaking_vote_pre` lives in
`distil/modeling/helpers.py`, which is not under `src/`; §4.4 of the
spec defines it.  Input is a models × rows matrix of per-row predicted
labels plus the ordered label set; for each row it counts votes per
label and returns the label with the highest count, ties broken by the
position of the tied labels within the label ordering (earliest wins).
Row `i`'s votes are the `i`-th entry of each model's prediction vector. -/
def tiebreaking_vote_pre {L : Type} [DecidableEq L]
    (m : List (List L)) (labels : List L) : List (Option L) :=
  match m with
  | [] => []
  | p :: _ =>
    (List.range p.length).map
      (fun i => rowVote (m.filterMap (fun q => q.get? i)) labels)

/-- Classification branch of `ForestCV.predict` (forest.py lines 125-130):
`labels = pd.unique(np.vstack(self._y_train).squeeze())` then
`tiebreaking_vote_pre(np.vstack(preds), labels)`.  `np.vstack` raises
`ValueError` on an empty list (so it does when no member produced a
prediction, and when `_y_train` is empty); `preds` is the list of the
members' per-row prediction vectors and `y_train` the recorded training
target (one list per target row, flattened by `squeeze`). -/
def ForestCV.predict_classification {L : Type} [DecidableEq L]
    (preds : List (List L)) (y_train : List (List L)) :
    Except String (List (Option L)) :=
  match y_train with
  | [] => .error "ValueError: need at least one array to concatenate"
  | _ :: _ =>
    let labels := pdUnique y_train.flatten
    match preds with
    | [] => .error "ValueError: need at least one array to concatenate"
    | p :: rest =>
      if rest.all (fun q => q.length = p.length) then
        .ok (tiebreaking_vote_pre (p :: rest) labels)
      else
        .error "ValueError: all the input array dimensions must match"

/-- Elementwise sum of the stacked prediction vectors (the reduction
inside `np.stack(preds).mean(axis=0)`). -/
def vecSum : List (List ℚ) → List ℚ
  | [] => []
  | [p] => p
  | p :: q :: rest => List.zipWith (fun a b => a + b) p (vecSum (q :: rest))

/-- Regression branch of `ForestCV.predict` (forest.py lines 131-132):
`np.stack(preds).mean(axis=0)`.  `np.stack` raises `ValueError` on an
empty list or on rows of unequal length; the mean over axis 0 is the
elementwise sum divided by the number of stacked rows. -/
def ForestCV.predict_regression (preds : List (List ℚ)) :
    Except String (List ℚ) :=
  match preds with
  | [] => .error "ValueError: need at least one array to stack"
  | p :: rest =>
    if rest.all (fun q => q.length = p.length) then
      .ok ((vecSum (p :: rest)).map (fun s => s / ((p :: rest).length : ℚ)))
    else
      .error "ValueError: all input arrays must have the same shape"

/-- C2.  For a fitted classification orchestrator, `predict` stacks the
members' per-row predicted labels into a models × rows matrix and
resolves each row by majority vote, where the label ordering passed to
the vote is `pd.unique` (first-seen order) of the stacked recorded
training targets; each resolved row's label attains the maximum vote
count and every label strictly earlier in the ordering has a strictly
smaller count (so a tie resolves to the earliest tied label). -/
theorem predict_vote_tiebreak {L : Type} [DecidableEq L]
    (p : List L) (rest : List (List L)) (y_train : List (List L))
    (hy : y_train.flatten ≠ [])
    (huni : ∀ q ∈ rest, q.length = p.length) :
    ∃ out, ForestCV.predict_classification (p :: rest) y_train = .ok out ∧
      out = tiebreaking_vote_pre (p :: rest) (pdUnique y_train.flatten) ∧
      out.length = p.length ∧
      ∀ i, i < p.length →
        ∃ j, ∃ hj : j < (pdUnique y_train.flatten).length,
          out.get? i = some (some ((pdUnique y_train.flatten).get ⟨j, hj⟩)) ∧
          (∀ k, ∀ hk : k < (pdUnique y_train.flatten).length,
            ((p :: rest).filterMap (fun q => q.get? i)).count
                ((pdUnique y_train.flatten).get ⟨k, hk⟩) ≤
              ((p :: rest).filterMap (fun q => q.get? i)).count
                ((pdUnique y_train.flatten).get ⟨j, hj⟩)) ∧
          (∀ k, ∀ hk : k < (pdUnique y_train.flatten).length, k < j →
            ((p :: rest).filterMap (fun q => q.get? i)).count
                ((pdUnique y_train.flatten).get ⟨k, hk⟩) <
              ((p :: rest).filterMap (fun q => q.get? i)).count
                ((pdUnique y_train.flatten).get ⟨j, hj⟩)) := by
  have hytne : y_train ≠ [] := by
    intro hc; rw [hc] at hy; exact hy rfl
  set labels := pdUnique y_train.flatten with hlabels
  have hlne : labels ≠ [] := pdUnique_ne_nil _ hy
  have hall : rest.all (fun q => q.length = p.length) = true := by
    simp only [List.all_eq_true, decide_eq_true_eq]
    exact huni
  have hok : ForestCV.predict_classification (p :: rest) y_train =
      .ok (tiebreaking_vote_pre (p :: rest) labels) := by
    cases y_train with
    | nil => exact absurd rfl hytne
    | cons yr yrest =>
      have hstep : ForestCV.predict_classification (p :: rest) (yr :: yrest) =
          if (rest.all fun q => q.length = p.length) = true then
            Except.ok (tiebreaking_vote_pre (p :: rest) (pdUnique (yr :: yrest).flatten))
          else Except.error "ValueError: all the input array dimensions must match" := rfl
      rw [hstep, hall]
      simp [hlabels]
  refine ⟨tiebreaking_vote_pre (p :: rest) labels, hok, rfl, ?_, ?_⟩
  · unfold tiebreaking_vote_pre
    simp
  · intro i hi
    set votes := (p :: rest).filterMap (fun q => q.get? i) with hvotes
    set counts := labels.map (fun lab => votes.count lab) with hcounts
    have hcne : counts ≠ [] := by
      rw [hcounts]
      intro hc
      exact hlne (List.map_eq_nil_iff.mp hc)
    have hjlt : argmaxIdx counts < counts.length := argmaxIdx_lt counts hcne
    have hclen : counts.length = labels.length := by rw [hcounts]; exact List.length_map _ _
    refine ⟨argmaxIdx counts, hclen ▸ hjlt, ?_, ?_, ?_⟩
    · have h1 : (tiebreaking_vote_pre (p :: rest) labels).get? i =
          some (rowVote votes labels) := by
        unfold tiebreaking_vote_pre
        rw [List.get?_eq_getElem?, List.getElem?_map, List.getElem?_range hi]
        simp [hvotes]
      rw [h1]
      unfold rowVote
      rw [← hcounts]
      have hjl : argmaxIdx counts < labels.length := hclen ▸ hjlt
      rw [List.get?_eq_getElem?, List.getElem?_eq_getElem hjl]
      simp [List.get_eq_getElem]
    · intro k hk
      have hkc : k < counts.length := hclen ▸ hk
      have hmax := argmaxIdx_max 0 counts k hkc
      rw [List.getD_eq_getElem _ _ hkc, List.getD_eq_getElem _ _ hjlt] at hmax
      simp only [hcounts, List.getElem_map, List.get_eq_getElem] at hmax ⊢
      exact hmax
    · intro k hk hkj
      have hfst := argmaxIdx_first 0 counts k hkj
      have hkc : k < counts.length := lt_trans hkj hjlt
      rw [List.getD_eq_getElem _ _ hkc, List.getD_eq_getElem _ _ hjlt] at hfst
      simp only [hcounts, List.getElem_map, List.get_eq_getElem] at hfst ⊢
      exact hfst

/-- Witness for C2: the spec's tie-break example.  Targets recorded as
`[[1], [0]]` give the label ordering `[1, 0]` (read: `[B, A]`); two
members vote `[0]` and `[1]` (read: `[A, B]`) for the single row, a
1-1 tie, and the resolved label is `1` (`B`), the earlier label in the
ordering. -/
theorem predict_vote_tiebreak_witness :
    (([[1], [0]] : List (List Nat)).flatten ≠ [] ∧ ∀ q ∈ [[1]], List.length q = 1) ∧
    (∃ out, ForestCV.predict_classification [[0], [1]] ([[1], [0]] : List (List Nat)) = .ok out ∧
      out = tiebreaking_vote_pre [[0], [1]] (pdUnique ([[1], [0]] : List (List Nat)).flatten) ∧
      out.length = ([0] : List Nat).length ∧
      ∀ i, i < ([0] : List Nat).length →
        ∃ j, ∃ hj : j < (pdUnique ([[1], [0]] : List (List Nat)).flatten).length,
          out.get? i = some (some ((pdUnique ([[1], [0]] : List (List Nat)).flatten).get ⟨j, hj⟩)) ∧
          (∀ k, ∀ hk : k < (pdUnique ([[1], [0]] : List (List Nat)).flatten).length,
            (([[0], [1]] : List (List Nat)).filterMap (fun q => q.get? i)).count
                ((pdUnique ([[1], [0]] : List (List Nat)).flatten).get ⟨k, hk⟩) ≤
              (([[0], [1]] : List (List Nat)).filterMap (fun q => q.get? i)).count
                ((pdUnique ([[1], [0]] : List (List Nat)).flatten).get ⟨j, hj⟩)) ∧
          (∀ k, ∀ hk : k < (pdUnique ([[1], [0]] : List (List Nat)).flatten).length, k < j →
            (([[0], [1]] : List (List Nat)).filterMap (fun q => q.get? i)).count
                ((pdUnique ([[1], [0]] : List (List Nat)).flatten).get ⟨k, hk⟩) <
              (([[0], [1]] : List (List Nat)).filterMap (fun q => q.get? i)).count
                ((pdUnique ([[1], [0]] : List (List Nat)).flatten).get ⟨j, hj⟩))) :=
  ⟨⟨by decide, by decide⟩,
    predict_vote_tiebreak [0] [[1]] [[1], [0]] (by decide) (by decide)⟩

/-- The spec's tie-break example, concretely: ordering `[B, A]`, votes
`[A, B]` resolve to `B` (here `B = 1`, `A = 0`). -/
example :
    ForestCV.predict_classification [[0], [1]] ([[1], [0]] : List (List Nat)) =
      .ok [some 1] := by rfl

/-- The spec's majority example: three members voting `[A, B, A]` with
ordering `[A, B]` resolve to `A` (here `A = 0`, `B = 1`). -/
example :
    ForestCV.predict_classification [[0], [1], [0]] ([[0], [1]] : List (List Nat)) =
      .ok [some 0] := by rfl

theorem vecSum_length :
    ∀ (p : List ℚ) (rest : List (List ℚ)),
      (∀ q ∈ rest, q.length = p.length) →
      (vecSum (p :: rest)).length = p.length := by
  intro p rest
  induction rest generalizing p with
  | nil => intro _; rfl
  | cons q rest' ih =>
    intro h
    have hq : q.length = p.length := h q (List.mem_cons_self q rest')
    have hrest' : ∀ x ∈ rest', x.length = q.length := by
      intro x hx
      rw [hq]
      exact h x (List.mem_cons_of_mem _ hx)
    rw [show vecSum (p :: q :: rest') =
      List.zipWith (fun a b => a + b) p (vecSum (q :: rest')) from rfl]
    rw [List.length_zipWith, ih q hrest', hq]
    exact Nat.min_self _

theorem vecSum_getD :
    ∀ (p : List ℚ) (rest : List (List ℚ)),
      (∀ q ∈ rest, q.length = p.length) →
      ∀ i, i < p.length →
      (vecSum (p :: rest)).getD i 0 =
        ((p :: rest).map (fun q => q.getD i 0)).sum := by
  intro p rest
  induction rest generalizing p with
  | nil =>
    intro _ i _
    simp [vecSum]
  | cons q rest' ih =>
    intro h i hi
    have hq : q.length = p.length := h q (List.mem_cons_self q rest')
    have hrest' : ∀ x ∈ rest', x.length = q.length := by
      intro x hx
      rw [hq]
      exact h x (List.mem_cons_of_mem _ hx)
    have hvlen : (vecSum (q :: rest')).length = q.length := vecSum_length q rest' hrest'
    have hiz : i < (List.zipWith (fun a b => a + b) p (vecSum (q :: rest'))).length := by
      rw [List.length_zipWith, hvlen, hq]
      simpa using hi
    have hiv : i < (vecSum (q :: rest')).length := by rw [hvlen, hq]; exact hi
    rw [show vecSum (p :: q :: rest') =
      List.zipWith (fun a b => a + b) p (vecSum (q :: rest')) from rfl]
    rw [List.getD_eq_getElem _ _ hiz, List.getElem_zipWith]
    rw [← List.getD_eq_getElem p 0 hi, ← List.getD_eq_getElem _ 0 hiv]
    rw [ih q hrest' i (hq ▸ hi)]
    simp [List.map_cons, List.sum_cons]

/-- C5.  For a fitted regression orchestrator with at least one member,
`predict` returns, per row, the arithmetic mean of the members'
predictions for that row: entry `i` of the output is the sum of the
members' entry `i` divided by the number of members. -/
theorem predict_regression_mean (p : List ℚ) (rest : List (List ℚ))
    (huni : ∀ q ∈ rest, q.length = p.length) :
    ∃ out, ForestCV.predict_regression (p :: rest) = .ok out ∧
      out.length = p.length ∧
      ∀ i, i < p.length →
        out.getD i 0 =
          ((p :: rest).map (fun q => q.getD i 0)).sum / ((p :: rest).length : ℚ) := by
  have hall : rest.all (fun q => q.length = p.length) = true := by
    simp only [List.all_eq_true, decide_eq_true_eq]
    exact huni
  have hlen : (vecSum (p :: rest)).length = p.length :=
    vecSum_length p rest huni
  have hok : ForestCV.predict_regression (p :: rest) =
      .ok ((vecSum (p :: rest)).map (fun s => s / (((p :: rest).length : ℕ) : ℚ))) := by
    have hstep : ForestCV.predict_regression (p :: rest) =
        if (rest.all fun q => q.length = p.length) = true then
          Except.ok ((vecSum (p :: rest)).map
            (fun s => s / (((p :: rest).length : ℕ) : ℚ)))
        else Except.error "ValueError: all input arrays must have the same shape" := rfl
    rw [hstep, hall]
    simp
  refine ⟨_, hok, ?_, ?_⟩
  · rw [List.length_map]
    exact hlen
  · intro i hi
    have hiv : i < (vecSum (p :: rest)).length := by rw [hlen]; exact hi
    have him : i < ((vecSum (p :: rest)).map
        (fun s => s / (((p :: rest).length : ℕ) : ℚ))).length := by
      rw [List.length_map]; exact hiv
    rw [List.getD_eq_getElem _ _ him, List.getElem_map]
    rw [← List.getD_eq_getElem _ 0 hiv, vecSum_getD p rest huni i hi]

/-- Witness for C5: the spec's regression-aggregation example, three
members predicting `1.0`, `2.0`, `3.0` for the single row. -/
theorem predict_regression_mean_witness :
    (∀ q ∈ [[(2 : ℚ)], [(3 : ℚ)]], List.length q = 1) ∧
    (∃ out, ForestCV.predict_regression [[(1 : ℚ)], [2], [3]] = .ok out ∧
      out.length = 1 ∧
      ∀ i, i < 1 →
        out.getD i 0 =
          (([[(1 : ℚ)], [2], [3]].map (fun q => q.getD i 0)).sum) /
            ((3 : ℕ) : ℚ)) := by
  refine ⟨by decide, ?_⟩
  have h := predict_regression_mean [(1 : ℚ)] [[2], [3]] (by decide)
  simpa using h

/-- The spec's regression example, concretely: members predicting
`[1, 2, 3]` for one row give the ensemble output `2`. -/
example :
    ForestCV.predict_regression [[(1 : ℚ)], [2], [3]] = .ok [2] := by
  show Except.ok ((vecSum [[(1 : ℚ)], [2], [3]]).map
    (fun s => s / (((3 : ℕ)) : ℚ))) = Except.ok [2]
  norm_num [vecSum]

/-- C9.  `predict` on an orchestrator holding zero fitted members
raises: with no members, `preds` is the empty list, and both the
classification branch (`np.vstack`) and the regression branch
(`np.stack`) raise `ValueError`; no prediction is returned, whatever
the recorded targets. -/
theorem predict_empty_ensemble {L : Type} [DecidableEq L]
    (y_train : List (List L)) :
    (∃ e, ForestCV.predict_classification ([] : List (List L)) y_train = .error e) ∧
    (∃ e, ForestCV.predict_regression [] = .error e) := by
  constructor
  · cases y_train with
    | nil => exact ⟨_, rfl⟩
    | cons yr yrest => exact ⟨_, rfl⟩
  · exact ⟨_, rfl⟩

/-- The orchestrator mode, derived from the metric family. -/
inductive Mode where
  | classification : Mode
  | regression : Mode
deriving DecidableEq, Repr

/-- The observable state of a fitted sklearn forest (an external
collaborator): its OOB mean prediction vector (regression), its
aggregated OOB decision-score matrix with one row per training row and
one column per class (classification), and its class array. -/
structure SKFitted (L : Type) where
  oob_prediction : List ℚ
  oob_decision_function : List (List ℚ)
  classes : List L

/-- Result of `AnyForest.predict_oob`: a regression value vector or a
classification label vector (a label is `none` only on an out-of-range
class index, which numpy would raise on). -/
inductive OOBPred (L : Type) where
  | reg : List ℚ → OOBPred L
  | cls : List (Option L) → OOBPred L
deriving DecidableEq

/-- Embedding of `AnyForest.predict_oob` (forest.py lines 54-59): regression returns
`self.model.oob_prediction_`; classification takes
`score_oob = self.model.oob_decision_function_` and returns
`self.model.classes_[score_oob.argmax(axis=-1)]`, i.e. per training row
the class at the (first-occurrence) argmax of the aggregated OOB
decision scores. -/
def AnyForest.predict_oob {L : Type} (mode : Mode) (m : SKFitted L) : OOBPred L :=
  match mode with
  | .regression => .reg m.oob_prediction
  | .classification =>
    .cls (m.oob_decision_function.map (fun row => m.classes.get? (argmaxIdx row)))

/-- C3.  `predict_oob()` returns the per-training-row OOB mean
prediction in regression mode; in classification mode it returns, per
training row, the class at the argmax of that row of the aggregated OOB
decision scores: the chosen class's score is maximal in the row and
every class earlier in `classes_` has a strictly smaller score (the
selection is a score argmax, not a vote over trees). -/
theorem predict_oob_argmax {L : Type} (m : SKFitted L) :
    AnyForest.predict_oob Mode.regression m = OOBPred.reg m.oob_prediction ∧
    ∃ out, AnyForest.predict_oob Mode.classification m = OOBPred.cls out ∧
      out.length = m.oob_decision_function.length ∧
      ∀ i, ∀ hi : i < m.oob_decision_function.length,
        m.oob_decision_function.get ⟨i, hi⟩ ≠ [] →
        m.classes.length = (m.oob_decision_function.get ⟨i, hi⟩).length →
        ∃ j, ∃ hjc : j < m.classes.length,
          ∃ hjr : j < (m.oob_decision_function.get ⟨i, hi⟩).length,
          out.get? i = some (some (m.classes.get ⟨j, hjc⟩)) ∧
          (∀ k, ∀ hk : k < (m.oob_decision_function.get ⟨i, hi⟩).length,
            (m.oob_decision_function.get ⟨i, hi⟩).get ⟨k, hk⟩ ≤
              (m.oob_decision_function.get ⟨i, hi⟩).get ⟨j, hjr⟩) ∧
          (∀ k, ∀ hk : k < (m.oob_decision_function.get ⟨i, hi⟩).length, k < j →
            (m.oob_decision_function.get ⟨i, hi⟩).get ⟨k, hk⟩ <
              (m.oob_decision_function.get ⟨i, hi⟩).get ⟨j, hjr⟩) := by
  refine ⟨rfl, m.oob_decision_function.map (fun row => m.classes.get? (argmaxIdx row)),
    rfl, by rw [List.length_map], ?_⟩
  intro i hi hrow hlen
  set row := m.oob_decision_function.get ⟨i, hi⟩ with hrowdef
  have hjr : argmaxIdx row < row.length := argmaxIdx_lt row hrow
  have hjc : argmaxIdx row < m.classes.length := by rw [hlen]; exact hjr
  refine ⟨argmaxIdx row, hjc, hjr, ?_, ?_, ?_⟩
  · rw [List.get?_eq_getElem?, List.getElem?_map]
    rw [show m.oob_decision_function[i]? = some row by
      rw [List.getElem?_eq_getElem hi]; rw [hrowdef]; simp [List.get_eq_getElem]]
    simp only [Option.map_some']
    rw [List.get?_eq_getElem?, List.getElem?_eq_getElem hjc]
    simp [List.get_eq_getElem]
  · intro k hk
    have := argmaxIdx_max 0 row k hk
    rw [List.getD_eq_getElem _ _ hk, List.getD_eq_getElem _ _ hjr] at this
    simpa [List.get_eq_getElem] using this
  · intro k hk hkj
    have := argmaxIdx_first 0 row k hkj
    have hkr : k < row.length := lt_trans hkj hjr
    rw [List.getD_eq_getElem _ _ hkr, List.getD_eq_getElem _ _ hjr] at this
    simpa [List.get_eq_getElem] using this

/-- Witness for C3: a fitted model with two training rows and classes
`[10, 20]`; row 0 scores put class `20` ahead, row 1 ties both classes
so the first class `10` (first argmax occurrence) is chosen. -/
theorem predict_oob_argmax_witness :
    (AnyForest.predict_oob Mode.regression
        (⟨[5], [[1, 3], [2, 2]], [10, 20]⟩ : SKFitted Nat) =
      OOBPred.reg [5]) ∧
    (∃ out, AnyForest.predict_oob Mode.classification
        (⟨[5], [[1, 3], [2, 2]], [10, 20]⟩ : SKFitted Nat) = OOBPred.cls out ∧
      out.length = 2 ∧
      ∀ i, ∀ hi : i <
          (([[1, 3], [2, 2]] : List (List ℚ))).length,
        (([[1, 3], [2, 2]] : List (List ℚ))).get ⟨i, hi⟩ ≠ [] →
        ([10, 20] : List Nat).length =
          ((([[1, 3], [2, 2]] : List (List ℚ))).get ⟨i, hi⟩).length →
        ∃ j, ∃ hjc : j < ([10, 20] : List Nat).length,
          ∃ hjr : j < ((([[1, 3], [2, 2]] : List (List ℚ))).get ⟨i, hi⟩).length,
          out.get? i = some (some (([10, 20] : List Nat).get ⟨j, hjc⟩)) ∧
          (∀ k, ∀ hk : k < ((([[1, 3], [2, 2]] : List (List ℚ))).get ⟨i, hi⟩).length,
            ((([[1, 3], [2, 2]] : List (List ℚ))).get ⟨i, hi⟩).get ⟨k, hk⟩ ≤
              ((([[1, 3], [2, 2]] : List (List ℚ))).get ⟨i, hi⟩).get ⟨j, hjr⟩) ∧
          (∀ k, ∀ hk : k < ((([[1, 3], [2, 2]] : List (List ℚ))).get ⟨i, hi⟩).length,
            k < j →
            ((([[1, 3], [2, 2]] : List (List ℚ))).get ⟨i, hi⟩).get ⟨k, hk⟩ <
              ((([[1, 3], [2, 2]] : List (List ℚ))).get ⟨i, hi⟩).get ⟨j, hjr⟩)) :=
  predict_oob_argmax (⟨[5], [[1, 3], [2, 2]], [10, 20]⟩ : SKFitted Nat)

/-- The classification OOB prediction, concretely: scores `[1, 3]` pick
the class at index 1 (`20`); scores `[2, 2]` tie and the first argmax
occurrence picks the class at index 0 (`10`) — an argmax over scores,
not a vote. -/
example :
    AnyForest.predict_oob Mode.classification
      (⟨[5], [[1, 3], [2, 2]], [10, 20]⟩ : SKFitted Nat) =
    OOBPred.cls [some 20, some 10] := by rfl

/-- Embedding of `ForestCV.predict_proba` (forest.py lines 134-136):
`self._models[0].predict_proba(X)`; Python list indexing raises
`IndexError` on an empty list.  A member is modelled by its
`predict_proba` behaviour `X → P`. -/
def ForestCV.predict_proba {X P : Type} (models : List (X → P)) (x : X) :
    Except String P :=
  match models with
  | [] => .error "IndexError: list index out of range"
  | m :: _ => .ok (m x)

/-- Embedding of `ForestCV.feature_importances` (forest.py lines 139-140):
`self._models[0].feature_importances()`; a member is modelled abstractly
and `importances` extracts its importance vector. -/
def ForestCV.feature_importances {M I : Type} (models : List M)
    (importances : M → I) : Except String I :=
  match models with
  | [] => .error "IndexError: list index out of range"
  | m :: _ => .ok (importances m)

/-- C6.  On an orchestrator with one or more members, `predict_proba`
returns exactly the first member's class-probability output and
`feature_importances` exactly the first member's importance vector,
whatever the remaining members are. -/
theorem first_member_proba_importances {X P M I : Type}
    (m : X → P) (rest : List (X → P)) (x : X)
    (mm : M) (mrest : List M) (importances : M → I) :
    ForestCV.predict_proba (m :: rest) x = .ok (m x) ∧
    ForestCV.feature_importances (mm :: mrest) importances = .ok (importances mm) :=
  ⟨rfl, rfl⟩

instance : DecidableRel (fun (a b : String × List PVal) => a.1 ≤ b.1) :=
  fun a b => inferInstanceAs (Decidable (a.1 ≤ b.1))

/-- Cross product of the named value lists, first key varying slowest
(`itertools.product` over the values in key order). -/
def gridProduct : List (String × List PVal) → List Params
  | [] => [[]]
  | (k, vs) :: rest =>
    (vs.map (fun v => (gridProduct rest).map (fun ps => (k, v) :: ps))).flatten

/-- sklearn's `ParameterGrid` enumeration: items sorted by key, then the
cross product of the value lists. -/
def ParameterGrid (g : List (String × List PVal)) : List Params :=
  gridProduct (List.insertionSort (fun a b => a.1 ≤ b.1) g)

/-- Data of `ForestCV.default_param_grids["classification"]` (forest.py lines
66-72). -/
def default_param_grid_classification : List (String × List PVal) :=
  [("estimator", [PVal.str "RandomForest"]),
   ("n_estimators", [PVal.int 32, PVal.int 64, PVal.int 128, PVal.int 256,
      PVal.int 512, PVal.int 1024, PVal.int 2048]),
   ("min_samples_leaf", [PVal.int 1, PVal.int 2, PVal.int 4, PVal.int 8,
      PVal.int 16, PVal.int 32]),
   ("class_weight", [PVal.none, PVal.str "balanced"])]

/-- Data of `ForestCV.default_param_grids["regression"]` (forest.py lines
73-78). -/
def default_param_grid_regression : List (String × List PVal) :=
  [("estimator", [PVal.str "ExtraTrees", PVal.str "RandomForest"]),
   ("bootstrap", [PVal.bool true]),
   ("n_estimators", [PVal.int 32, PVal.int 64, PVal.int 128, PVal.int 256,
      PVal.int 512, PVal.int 1024, PVal.int 2048]),
   ("min_samples_leaf", [PVal.int 2, PVal.int 4, PVal.int 8, PVal.int 16,
      PVal.int 32, PVal.int 64])]

def default_param_grids : Mode → List (String × List PVal)
  | Mode.classification => default_param_grid_classification
  | Mode.regression => default_param_grid_regression

/-- The orchestrator state.  `param_grid` holds the enumerated grid
points (`ParameterGrid(self.param_grid)`) when a grid search is
configured; `params` is the fixed hyperparameter dict (`self.params`,
stored by reference from the caller's `hyperparams` argument);
`best_params`/`best_fitness` are the attributes `_fit` assigns during a
grid search, `none` standing for a never-assigned Python attribute;
`models` records each fitted member by the parameter dict its
`AnyForest` was constructed with. -/
structure ForestCV where
  target_metric : String
  mode : Mode
  subset : Nat
  final_subset : Nat
  verbose : Nat
  num_fits : Nat
  inner_jobs : Nat
  outer_jobs : Nat
  params : Option Params
  random_seed : Option Int
  param_grid : Option (List Params)
  best_params : Option Params
  best_fitness : Option ℚ
  models : List Params
deriving DecidableEq, Repr

/-- Embedding of `ForestCV.__init__` (forest.py lines 81-113).  The two metric-family
name lists live in `distil/modeling/metrics.py`, which is not under
`src/`; following the spec ("the metric registry indicates whether the
metric belongs to the classification or regression family") they are
passed in as the two family lists.  Mirrors the source order: the
classification family is tested first, then the regression family, else
`Exception(f'ForestCV: unknown metric ...')`; with `grid_search` the
given grid (or the mode's default grid) is enumerated, otherwise no
grid is stored; `hyperparams` is stored as `self.params` without
copying. -/
def ForestCV.initState (target_metric : String)
    (subset final_subset verbose num_fits inner_jobs : Nat)
    (grid_search : Bool) (param_grid : Option (List Params))
    (random_seed : Option Int) (hyperparams : Option Params) (n_jobs : Nat)
    (mode : Mode) : ForestCV :=
  { target_metric := target_metric
    mode := mode
    subset := subset
    final_subset := final_subset
    verbose := verbose
    num_fits := num_fits
    inner_jobs := inner_jobs
    outer_jobs := n_jobs
    params := hyperparams
    random_seed := random_seed
    param_grid :=
      if grid_search then
        some (param_grid.getD (ParameterGrid (default_param_grids mode)))
      else
        Option.none
    best_params := Option.none
    best_fitness := Option.none
    models := [] }

def ForestCV.init (classification_metrics regression_metrics : List String)
    (target_metric : String) (subset final_subset verbose num_fits inner_jobs : Nat)
    (grid_search : Bool) (param_grid : Option (List Params))
    (random_seed : Option Int) (hyperparams : Option Params) (n_jobs : Nat) :
    Except String ForestCV :=
  if target_metric ∈ classification_metrics then
    .ok (ForestCV.initState target_metric subset final_subset verbose num_fits
      inner_jobs grid_search param_grid random_seed hyperparams n_jobs
      Mode.classification)
  else if target_metric ∈ regression_metrics then
    .ok (ForestCV.initState target_metric subset final_subset verbose num_fits
      inner_jobs grid_search param_grid random_seed hyperparams n_jobs
      Mode.regression)
  else
    .error ("ForestCV: unknown metric " ++ target_metric)

/-- Either `None` or an int seed, as the dict value Python stores. -/
def seedPV : Option Int → PVal
  | Option.none => PVal.none
  | some i => PVal.int i

/-- Embedding of `ForestCV._eval_grid_point` (forest.py lines 142-153):
`params['random_state'] = random_seed` mutates the grid point's dict,
then `AnyForest(mode=self.mode, oob_score=True, n_jobs=self.inner_jobs,
**params)` is fit and `metrics[self.target_metric](y, predict_oob())`
scores it.  The sklearn fit-and-score composite is the external oracle
`ef`, a function of the point's full parameter dict. -/
def ForestCV.eval_grid_point (random_seed : Option Int) (ef : Params → ℚ)
    (p : Params) : GridResult :=
  let p2 := setKey p "random_state" (seedPV random_seed)
  { params := p2, fitness := ef p2 }

/-- One call of `ForestCV._fit` (forest.py lines 155-178), returning the
updated object state and the parameter dict the member model was
constructed with.  Grid path: evaluate every grid point (through
`parmap`, which per §4.3 of the spec — `distil/utils.py` is not under
`src/` — applies the function to the points in order with the one
passed `random_seed`), pick `sorted(results, key=fitness)[-1]`, assign
`self.best_params`/`self.best_fitness`, refit the winner.  Fixed path:
`current_params = self.params` aliases the stored dict,
`current_params['random_state'] = self.random_seed` mutates it, and the
member is built from it; `self.params = None` raises.  `maybe_subset`
and the sklearn training act only on data the oracle already
absorbs. -/
def ForestCV.fitStep (c : ForestCV) (ef : Params → ℚ) :
    Except String (ForestCV × Params) :=
  match c.param_grid with
  | some grid =>
    let results := grid.map (ForestCV.eval_grid_point c.random_seed ef)
    match selectBest results with
    | Option.none => .error "IndexError: list index out of range"
    | some best =>
      .ok (⟨{ c with
                best_params := some best.params
                best_fitness := some best.fitness }, best.params⟩ :
        ForestCV × Params)
  | Option.none =>
    match c.params with
    | Option.none => .error "TypeError: NoneType object does not support item assignment"
    | some ps =>
      let ps2 := setKey ps "random_state" (seedPV c.random_seed)
      .ok ({ c with params := some ps2 }, ps2)

/-- The list comprehension
`[self._fit(Xf_train, y_train, self.param_grid) for _ in range(self.num_fits)]`
(forest.py line 117): `num_fits` sequential `_fit` calls, threading the
object state each call mutates, collecting the member models in
order. -/
def ForestCV.fitLoop (ef : Params → ℚ) :
    ForestCV → Nat → Except String (ForestCV × List Params)
  | c, 0 => .ok (c, [])
  | c, n + 1 =>
    match ForestCV.fitStep c ef with
    | .error e => .error e
    | .ok (c1, mp) =>
      match ForestCV.fitLoop ef c1 n with
      | .error e => .error e
      | .ok (c2, ms) => .ok (c2, mp :: ms)

/-- Embedding of `ForestCV.fit` (forest.py lines 115-118): run `_fit` `num_fits`
times and store the members as `self._models`. -/
def ForestCV.fit (c : ForestCV) (ef : Params → ℚ) : Except String ForestCV :=
  match ForestCV.fitLoop ef c c.num_fits with
  | .error e => .error e
  | .ok (c2, ms) => .ok { c2 with models := ms }

/-- The record returned by the `details` property (forest.py lines
180-186). -/
structure Details where
  cv_score : ℚ
  best_params : Params
  num_fits : Nat
deriving DecidableEq, Repr

/-- The `details` property: reading `self.best_fitness` or
`self.best_params` before `_fit` has run a grid search raises
`AttributeError` (the attributes were never assigned). -/
def ForestCV.details (c : ForestCV) : Except String Details :=
  match c.best_fitness, c.best_params with
  | some f, some p =>
    .ok { cv_score := f, best_params := p, num_fits := c.num_fits }
  | _, _ => .error "AttributeError: ForestCV object has no attribute best_fitness"

theorem init_ok_fields (cm rm : List String) (tm : String)
    (subset final_subset verbose num_fits inner_jobs : Nat) (grid_search : Bool)
    (pg : Option (List Params)) (seed : Option Int) (hp : Option Params)
    (n_jobs : Nat) (c : ForestCV)
    (h : ForestCV.init cm rm tm subset final_subset verbose num_fits inner_jobs
      grid_search pg seed hp n_jobs = .ok c) :
    c.best_params = Option.none ∧ c.best_fitness = Option.none ∧
    c.num_fits = num_fits ∧ c.params = hp ∧ c.random_seed = seed ∧
    c.models = [] ∧ (grid_search = false → c.param_grid = Option.none) := by
  unfold ForestCV.init at h
  by_cases h1 : tm ∈ cm
  · rw [if_pos h1] at h
    injection h with h2
    subst h2
    refine ⟨rfl, rfl, rfl, rfl, rfl, rfl, ?_⟩
    intro hgs
    subst hgs
    simp [ForestCV.initState]
  · rw [if_neg h1] at h
    by_cases h2 : tm ∈ rm
    · rw [if_pos h2] at h
      injection h with h3
      subst h3
      refine ⟨rfl, rfl, rfl, rfl, rfl, rfl, ?_⟩
      intro hgs
      subst hgs
      simp [ForestCV.initState]
    · rw [if_neg h2] at h
      exact absurd h (by simp)

theorem details_error_of_none (c : ForestCV) (h : c.best_fitness = Option.none) :
    ∃ e, c.details = .error e := by
  unfold ForestCV.details
  rw [h]
  cases c.best_params with
  | none => exact ⟨_, rfl⟩
  | some p => exact ⟨_, rfl⟩

/-- The fixed-hyperparameters branch of `_fit`: it never assigns
`best_params`/`best_fitness`, keeps the missing grid, seed and
`num_fits`, writes the configured seed into the stored dict and builds
the member from exactly that dict. -/
theorem fitStep_no_grid (c c' : ForestCV) (mp : Params) (ef : Params → ℚ)
    (hpg : c.param_grid = Option.none)
    (h : ForestCV.fitStep c ef = .ok (c', mp)) :
    c'.best_params = c.best_params ∧ c'.best_fitness = c.best_fitness ∧
    c'.param_grid = Option.none ∧ c'.random_seed = c.random_seed ∧
    c'.num_fits = c.num_fits ∧
    ∃ ps, c.params = some ps ∧ mp = setKey ps "random_state" (seedPV c.random_seed) ∧
      c'.params = some mp := by
  unfold ForestCV.fitStep at h
  rw [hpg] at h
  cases hps : c.params with
  | none =>
    rw [hps] at h
    exact absurd h (by simp)
  | some ps =>
    rw [hps] at h
    simp only [Except.ok.injEq, Prod.mk.injEq] at h
    obtain ⟨hc, hmp⟩ := h
    subst hc
    exact ⟨rfl, rfl, rfl, rfl, rfl, ps, rfl, hmp.symm, by rw [hmp]⟩

/-- The grid branch of `_fit`: the selected best of the evaluated grid
is assigned to `best_params`/`best_fitness`, the member is refit from
the winning dict, and grid, seed and `num_fits` are unchanged. -/
theorem fitStep_grid (c c' : ForestCV) (grid : List Params) (mp : Params)
    (ef : Params → ℚ) (hpg : c.param_grid = some grid)
    (h : ForestCV.fitStep c ef = .ok (c', mp)) :
    ∃ best, selectBest (grid.map (ForestCV.eval_grid_point c.random_seed ef)) =
        some best ∧
      c'.best_params = some best.params ∧ c'.best_fitness = some best.fitness ∧
      mp = best.params ∧ c'.param_grid = some grid ∧
      c'.random_seed = c.random_seed ∧ c'.num_fits = c.num_fits ∧
      c'.params = c.params := by
  unfold ForestCV.fitStep at h
  rw [hpg] at h
  dsimp only at h
  cases hsb : selectBest (grid.map (ForestCV.eval_grid_point c.random_seed ef)) with
  | none =>
    rw [hsb] at h
    exact absurd h (by simp)
  | some best =>
    rw [hsb] at h
    simp only [Except.ok.injEq, Prod.mk.injEq] at h
    obtain ⟨hc, hmp⟩ := h
    subst hc
    exact ⟨best, rfl, rfl, rfl, hmp.symm, rfl, rfl, rfl, rfl⟩

/-- Iterating `_fit` with no grid configured: the best-run attributes
stay unassigned, the configuration fields persist, and every member's
construction dict carries the configured seed under `random_state`. -/
theorem fitLoop_no_grid (ef : Params → ℚ) :
    ∀ (n : Nat) (c c2 : ForestCV) (ms : List Params),
    c.param_grid = Option.none →
    ForestCV.fitLoop ef c n = .ok (c2, ms) →
    c2.best_params = c.best_params ∧ c2.best_fitness = c.best_fitness ∧
    c2.param_grid = Option.none ∧ c2.random_seed = c.random_seed ∧
    c2.num_fits = c.num_fits ∧
    ∀ mp ∈ ms, getKey mp "random_state" = some (seedPV c.random_seed) := by
  intro n
  induction n with
  | zero =>
    intro c c2 ms hpg h
    unfold ForestCV.fitLoop at h
    simp only [Except.ok.injEq, Prod.mk.injEq] at h
    obtain ⟨hc, hms⟩ := h
    subst hc
    subst hms
    exact ⟨rfl, rfl, hpg, rfl, rfl, by intro mp hmp; simp at hmp⟩
  | succ n ih =>
    intro c c2 ms hpg h
    unfold ForestCV.fitLoop at h
    cases hstep : ForestCV.fitStep c ef with
    | error e => rw [hstep] at h; exact absurd h (by simp)
    | ok pr =>
      obtain ⟨c1, mp⟩ := pr
      rw [hstep] at h
      dsimp only at h
      cases hloop : ForestCV.fitLoop ef c1 n with
      | error e => rw [hloop] at h; exact absurd h (by simp)
      | ok pr2 =>
        obtain ⟨c2', ms'⟩ := pr2
        rw [hloop] at h
        simp only [Except.ok.injEq, Prod.mk.injEq] at h
        obtain ⟨hc, hms⟩ := h
        subst hc
        subst hms
        obtain ⟨hb1, hb2, hb3, hb4, hb5, ps, hps, hmp, hcp⟩ :=
          fitStep_no_grid c c1 mp ef hpg hstep
        obtain ⟨hi1, hi2, hi3, hi4, hi5, hi6⟩ := ih c1 c2' ms' hb3 hloop
        refine ⟨hi1.trans hb1, hi2.trans hb2, hi3, hi4.trans hb4,
          hi5.trans hb5, ?_⟩
        intro mq hmq
        rcases List.mem_cons.mp hmq with hq | hq
        · subst hq
          rw [hmp]
          exact getKey_setKey_self ps "random_state" (seedPV c.random_seed)
        · rw [hi6 mq hq, hb4]

/-- Iterating `_fit` with a grid: configuration fields persist, at
least one iteration leaves the best result of the (always identical)
evaluated grid in `best_params`/`best_fitness`, and every member is the
winner of such a search. -/
theorem fitLoop_grid (ef : Params → ℚ) (grid : List Params) :
    ∀ (n : Nat) (c c2 : ForestCV) (ms : List Params),
    c.param_grid = some grid →
    ForestCV.fitLoop ef c n = .ok (c2, ms) →
    c2.param_grid = some grid ∧ c2.random_seed = c.random_seed ∧
    c2.num_fits = c.num_fits ∧
    (1 ≤ n → ∃ best,
      selectBest (grid.map (ForestCV.eval_grid_point c.random_seed ef)) =
        some best ∧
      c2.best_params = some best.params ∧ c2.best_fitness = some best.fitness) ∧
    (∀ mp ∈ ms, ∃ best,
      selectBest (grid.map (ForestCV.eval_grid_point c.random_seed ef)) =
        some best ∧ mp = best.params) := by
  intro n
  induction n with
  | zero =>
    intro c c2 ms hpg h
    unfold ForestCV.fitLoop at h
    simp only [Except.ok.injEq, Prod.mk.injEq] at h
    obtain ⟨hc, hms⟩ := h
    subst hc
    subst hms
    exact ⟨hpg, rfl, rfl, by omega, by intro mp hmp; simp at hmp⟩
  | succ n ih =>
    intro c c2 ms hpg h
    unfold ForestCV.fitLoop at h
    cases hstep : ForestCV.fitStep c ef with
    | error e => rw [hstep] at h; exact absurd h (by simp)
    | ok pr =>
      obtain ⟨c1, mp⟩ := pr
      rw [hstep] at h
      dsimp only at h
      cases hloop : ForestCV.fitLoop ef c1 n with
      | error e => rw [hloop] at h; exact absurd h (by simp)
      | ok pr2 =>
        obtain ⟨c2', ms'⟩ := pr2
        rw [hloop] at h
        simp only [Except.ok.injEq, Prod.mk.injEq] at h
        obtain ⟨hc, hms⟩ := h
        subst hc
        subst hms
        obtain ⟨best, hsb, hb1, hb2, hb3, hb4, hb5, hb6, hb7⟩ :=
          fitStep_grid c c1 grid mp ef hpg hstep
        obtain ⟨hi1, hi2, hi3, hi4, hi5⟩ := ih c1 c2' ms' hb4 hloop
        have hseedeq : c1.random_seed = c.random_seed := hb5
        refine ⟨hi1, hi2.trans hb5, hi3.trans hb6, ?_, ?_⟩
        · intro _
          cases n with
          | zero =>
            unfold ForestCV.fitLoop at hloop
            simp only [Except.ok.injEq, Prod.mk.injEq] at hloop
            obtain ⟨hc1, _⟩ := hloop
            subst hc1
            exact ⟨best, hsb, hb1, hb2⟩
          | succ n0 =>
            obtain ⟨best2, hsb2, hbp2, hbf2⟩ := hi4 (by omega)
            rw [hseedeq] at hsb2
            exact ⟨best2, hsb2, hbp2, hbf2⟩
        · intro mq hmq
          rcases List.mem_cons.mp hmq with hq | hq
          · subst hq
            exact ⟨best, hsb, hb3⟩
          · obtain ⟨best2, hsb2, hq2⟩ := hi5 mq hq
            rw [hseedeq] at hsb2
            exact ⟨best2, hsb2, hq2⟩

/-- Iterating `_fit` with no grid when the stored dict already ends in
the seed entry: re-writing `random_state` with the same seed leaves the
dict unchanged. -/
theorem fitLoop_no_grid_params (ef : Params → ℚ) (h : Params)
    (hfresh : ∀ kv ∈ h, kv.1 ≠ "random_state") :
    ∀ (n : Nat) (c c2 : ForestCV) (ms : List Params),
    c.param_grid = Option.none →
    c.params = some (h ++ [("random_state", seedPV c.random_seed)]) →
    ForestCV.fitLoop ef c n = .ok (c2, ms) →
    c2.params = some (h ++ [("random_state", seedPV c.random_seed)]) := by
  intro n
  induction n with
  | zero =>
    intro c c2 ms hpg hcp hl
    unfold ForestCV.fitLoop at hl
    simp only [Except.ok.injEq, Prod.mk.injEq] at hl
    rw [← hl.1]
    exact hcp
  | succ n ih =>
    intro c c2 ms hpg hcp hl
    unfold ForestCV.fitLoop at hl
    cases hstep : ForestCV.fitStep c ef with
    | error e => rw [hstep] at hl; exact absurd hl (by simp)
    | ok pr =>
      obtain ⟨c1, mp⟩ := pr
      rw [hstep] at hl
      dsimp only at hl
      cases hloop : ForestCV.fitLoop ef c1 n with
      | error e => rw [hloop] at hl; exact absurd hl (by simp)
      | ok pr2 =>
        obtain ⟨c2', ms'⟩ := pr2
        rw [hloop] at hl
        simp only [Except.ok.injEq, Prod.mk.injEq] at hl
        obtain ⟨hc, _⟩ := hl
        subst hc
        obtain ⟨_, _, hb3, hb4, _, ps, hps, hmp, hcp1⟩ :=
          fitStep_no_grid c c1 mp ef hpg hstep
        have hpseq : ps = h ++ [("random_state", seedPV c.random_seed)] := by
          rw [hps] at hcp
          injection hcp.symm with hx
          exact hx.symm
        have hmp2 : mp = h ++ [("random_state", seedPV c.random_seed)] := by
          rw [hmp, hpseq]
          exact setKey_append_self h "random_state" (seedPV c.random_seed) hfresh
        have := ih c1 c2' ms' hb3 (by rw [hcp1, hmp2, hb4]) hloop
        rw [this, hb4]

/-- C7.  Construction with a metric name in neither family raises, and
only then; otherwise the orchestrator's mode is classification exactly
when the metric is in the classification family and regression exactly
when it is in the regression family (the families being disjoint, per
the spec each metric belongs to one family).  The mode is a plain field
no operation ever rewrites, so it is fixed for the instance's
lifetime. -/
theorem init_metric_mode (cm rm : List String) (tm : String)
    (hdisj : ∀ x ∈ cm, x ∉ rm)
    (subset final_subset verbose num_fits inner_jobs : Nat) (grid_search : Bool)
    (pg : Option (List Params)) (seed : Option Int) (hp : Option Params)
    (n_jobs : Nat) :
    ((∃ e, ForestCV.init cm rm tm subset final_subset verbose num_fits inner_jobs
        grid_search pg seed hp n_jobs = .error e) ↔ (tm ∉ cm ∧ tm ∉ rm)) ∧
    ∀ c, ForestCV.init cm rm tm subset final_subset verbose num_fits inner_jobs
        grid_search pg seed hp n_jobs = .ok c →
      ((c.mode = Mode.classification ↔ tm ∈ cm) ∧
       (c.mode = Mode.regression ↔ tm ∈ rm)) := by
  unfold ForestCV.init
  by_cases h1 : tm ∈ cm
  · rw [if_pos h1]
    constructor
    · constructor
      · rintro ⟨e, he⟩
        exact absurd he (by simp)
      · rintro ⟨hn1, _⟩
        exact absurd h1 hn1
    · intro c hc
      injection hc with hc2
      subst hc2
      refine ⟨⟨fun _ => h1, fun _ => rfl⟩, ?_, ?_⟩
      · intro hmode
        exact absurd hmode (by simp [ForestCV.initState])
      · intro hr
        exact absurd hr (hdisj tm h1)
  · rw [if_neg h1]
    by_cases h2 : tm ∈ rm
    · rw [if_pos h2]
      constructor
      · constructor
        · rintro ⟨e, he⟩
          exact absurd he (by simp)
        · rintro ⟨_, hn2⟩
          exact absurd h2 hn2
      · intro c hc
        injection hc with hc2
        subst hc2
        refine ⟨⟨?_, fun hcm => absurd h2 (hdisj tm hcm)⟩, fun _ => h2, fun _ => rfl⟩
        intro hmode
        exact absurd hmode (by simp [ForestCV.initState])
    · rw [if_neg h2]
      constructor
      · constructor
        · intro _
          exact ⟨h1, h2⟩
        · intro _
          exact ⟨_, rfl⟩
      · intro c hc
        exact absurd hc (by simp)

/-- Witness for C7: families `["accuracy", "f1Macro"]` and
`["meanSquaredError"]`; the metric `"accuracy"` yields classification
mode, never an error. -/
theorem init_metric_mode_witness :
    (∀ x ∈ ["accuracy", "f1Macro"], x ∉ ["meanSquaredError"]) ∧
    (((∃ e, ForestCV.init ["accuracy", "f1Macro"] ["meanSquaredError"]
        "accuracy" 100000 1500000 10 1 1 false Option.none Option.none
        Option.none 64 = .error e) ↔
      ("accuracy" ∉ ["accuracy", "f1Macro"] ∧
        "accuracy" ∉ ["meanSquaredError"])) ∧
    ∀ c, ForestCV.init ["accuracy", "f1Macro"] ["meanSquaredError"]
        "accuracy" 100000 1500000 10 1 1 false Option.none Option.none
        Option.none 64 = .ok c →
      ((c.mode = Mode.classification ↔ "accuracy" ∈ ["accuracy", "f1Macro"]) ∧
       (c.mode = Mode.regression ↔ "accuracy" ∈ ["meanSquaredError"]))) :=
  ⟨by decide,
    init_metric_mode ["accuracy", "f1Macro"] ["meanSquaredError"] "accuracy"
      (by decide) 100000 1500000 10 1 1 false Option.none Option.none
      Option.none 64⟩

/-- C8.  Reading `details` before any grid search has completed raises:
on a freshly constructed orchestrator (any configuration), and after
`fit` on an orchestrator configured with fixed hyperparameters and no
grid (no search ever runs).  After a fit that ran the configured grid
search, `details` returns the record of the searched best fitness, best
hyperparameters and `num_fits`. -/
theorem details_lifecycle (cm rm : List String) (tm : String)
    (subset final_subset verbose num_fits inner_jobs : Nat)
    (pg : Option (List Params)) (seed : Option Int) (hp : Option Params)
    (n_jobs : Nat) (ef : Params → ℚ) :
    (∀ grid_search c,
      ForestCV.init cm rm tm subset final_subset verbose num_fits inner_jobs
        grid_search pg seed hp n_jobs = .ok c →
      ∃ e, c.details = .error e) ∧
    (∀ c c',
      ForestCV.init cm rm tm subset final_subset verbose num_fits inner_jobs
        false pg seed hp n_jobs = .ok c →
      ForestCV.fit c ef = .ok c' → ∃ e, c'.details = .error e) ∧
    (∀ c c' grid, c.param_grid = some grid → 1 ≤ c.num_fits →
      ForestCV.fit c ef = .ok c' →
      ∃ best, selectBest (grid.map (ForestCV.eval_grid_point c.random_seed ef)) =
          some best ∧
        c'.details = .ok ⟨best.fitness, best.params, c.num_fits⟩) := by
  refine ⟨?_, ?_, ?_⟩
  · intro gs c hc
    obtain ⟨_, hbf, _⟩ := init_ok_fields cm rm tm subset final_subset verbose
      num_fits inner_jobs gs pg seed hp n_jobs c hc
    exact details_error_of_none c hbf
  · intro c c' hc hfit
    obtain ⟨hbp, hbf, _, _, _, _, hpgf⟩ := init_ok_fields cm rm tm subset
      final_subset verbose num_fits inner_jobs false pg seed hp n_jobs c hc
    have hpg := hpgf rfl
    unfold ForestCV.fit at hfit
    cases hloop : ForestCV.fitLoop ef c c.num_fits with
    | error e => rw [hloop] at hfit; exact absurd hfit (by simp)
    | ok pr =>
      obtain ⟨c2, ms⟩ := pr
      rw [hloop] at hfit
      simp only [Except.ok.injEq] at hfit
      subst hfit
      obtain ⟨_, h2, _, _, _, _⟩ :=
        fitLoop_no_grid ef c.num_fits c c2 ms hpg hloop
      apply details_error_of_none
      show c2.best_fitness = Option.none
      rw [h2, hbf]
  · intro c c' grid hpg hn hfit
    unfold ForestCV.fit at hfit
    cases hloop : ForestCV.fitLoop ef c c.num_fits with
    | error e => rw [hloop] at hfit; exact absurd hfit (by simp)
    | ok pr =>
      obtain ⟨c2, ms⟩ := pr
      rw [hloop] at hfit
      simp only [Except.ok.injEq] at hfit
      subst hfit
      obtain ⟨_, _, hnum, hbest, _⟩ :=
        fitLoop_grid ef grid c.num_fits c c2 ms hpg hloop
      obtain ⟨best, hsb, hbp, hbf⟩ := hbest hn
      refine ⟨best, hsb, ?_⟩
      unfold ForestCV.details
      have hbf2 : ({ c2 with models := ms } : ForestCV).best_fitness =
          some best.fitness := hbf
      have hbp2 : ({ c2 with models := ms } : ForestCV).best_params =
          some best.params := hbp
      have hnum2 : ({ c2 with models := ms } : ForestCV).num_fits =
          c.num_fits := hnum
      rw [hbf2, hbp2]
      dsimp only
      rw [hnum2]

/-- Witness for C8: a one-point grid, seed 42, constant-fitness oracle;
after `fit`, `details` returns the winning dict (the grid point with
the seed written in) at fitness 1, with `num_fits = 1`. -/
theorem details_lifecycle_witness :
    ((⟨"f1Macro", Mode.classification, 100, 1000, 10, 1, 1, 64, Option.none,
        some 42, some [[("n_estimators", PVal.int 32)]], Option.none,
        Option.none, []⟩ : ForestCV).param_grid =
          some [[("n_estimators", PVal.int 32)]] ∧
      1 ≤ (⟨"f1Macro", Mode.classification, 100, 1000, 10, 1, 1, 64,
        Option.none, some 42, some [[("n_estimators", PVal.int 32)]],
        Option.none, Option.none, []⟩ : ForestCV).num_fits ∧
      ForestCV.fit
        (⟨"f1Macro", Mode.classification, 100, 1000, 10, 1, 1, 64, Option.none,
          some 42, some [[("n_estimators", PVal.int 32)]], Option.none,
          Option.none, []⟩ : ForestCV) (fun _ => (1 : ℚ)) =
        .ok (⟨"f1Macro", Mode.classification, 100, 1000, 10, 1, 1, 64,
          Option.none, some 42, some [[("n_estimators", PVal.int 32)]],
          some [("n_estimators", PVal.int 32), ("random_state", PVal.int 42)],
          some 1,
          [[("n_estimators", PVal.int 32), ("random_state", PVal.int 42)]]⟩ :
          ForestCV)) ∧
    ∃ best, selectBest ([[("n_estimators", PVal.int 32)]].map
        (ForestCV.eval_grid_point
          (⟨"f1Macro", Mode.classification, 100, 1000, 10, 1, 1, 64,
            Option.none, some 42, some [[("n_estimators", PVal.int 32)]],
            Option.none, Option.none, []⟩ : ForestCV).random_seed
          (fun _ => (1 : ℚ)))) = some best ∧
      ForestCV.details
        (⟨"f1Macro", Mode.classification, 100, 1000, 10, 1, 1, 64, Option.none,
          some 42, some [[("n_estimators", PVal.int 32)]],
          some [("n_estimators", PVal.int 32), ("random_state", PVal.int 42)],
          some 1,
          [[("n_estimators", PVal.int 32), ("random_state", PVal.int 42)]]⟩ :
          ForestCV) =
        .ok ⟨best.fitness, best.params,
          (⟨"f1Macro", Mode.classification, 100, 1000, 10, 1, 1,
            64, Option.none, some 42, some [[("n_estimators", PVal.int 32)]],
            Option.none, Option.none, []⟩ : ForestCV).num_fits⟩ :=
  ⟨⟨rfl, by decide, by rfl⟩,
    (details_lifecycle [] [] "" 0 0 0 0 0 Option.none Option.none Option.none 0
        (fun _ => (1 : ℚ))).2.2
      (⟨"f1Macro", Mode.classification, 100, 1000, 10, 1, 1, 64, Option.none,
        some 42, some [[("n_estimators", PVal.int 32)]], Option.none,
        Option.none, []⟩ : ForestCV)
      (⟨"f1Macro", Mode.classification, 100, 1000, 10, 1, 1, 64, Option.none,
        some 42, some [[("n_estimators", PVal.int 32)]],
        some [("n_estimators", PVal.int 32), ("random_state", PVal.int 42)],
        some 1,
        [[("n_estimators", PVal.int 32), ("random_state", PVal.int 42)]]⟩ :
        ForestCV)
      [[("n_estimators", PVal.int 32)]] rfl (by decide) (by rfl)⟩

/-- C4.  During one grid search every evaluated grid point is trained
with `random_state` set to the one caller-configured seed (the search
maps `eval_grid_point` with the same seed over every point, never
varying it); and on the no-search path, every one of the `num_fits`
members is constructed from a dict carrying that identical configured
seed under `random_state`. -/
theorem seed_uniform (seed : Option Int) (ef : Params → ℚ) (grid : List Params)
    (c c' : ForestCV)
    (hpg : c.param_grid = Option.none) (hseed : c.random_seed = seed)
    (hfit : ForestCV.fit c ef = .ok c') :
    (∀ r ∈ grid.map (ForestCV.eval_grid_point seed ef),
      getKey r.params "random_state" = some (seedPV seed)) ∧
    (∀ mp ∈ c'.models, getKey mp "random_state" = some (seedPV seed)) := by
  constructor
  · intro r hr
    rw [List.mem_map] at hr
    obtain ⟨p, _, hrp⟩ := hr
    rw [← hrp]
    show getKey (setKey p "random_state" (seedPV seed)) "random_state" =
      some (seedPV seed)
    exact getKey_setKey_self p "random_state" (seedPV seed)
  · unfold ForestCV.fit at hfit
    cases hloop : ForestCV.fitLoop ef c c.num_fits with
    | error e => rw [hloop] at hfit; exact absurd hfit (by simp)
    | ok pr =>
      obtain ⟨c2, ms⟩ := pr
      rw [hloop] at hfit
      simp only [Except.ok.injEq] at hfit
      subst hfit
      obtain ⟨_, _, _, _, _, h6⟩ :=
        fitLoop_no_grid ef c.num_fits c c2 ms hpg hloop
      intro mp hmp
      have hmp2 : mp ∈ ms := hmp
      rw [h6 mp hmp2, hseed]

/-- Witness for C4: two fixed-hyperparameter fits with seed 7 — both
recorded members carry `random_state = 7` — and a one-point grid whose
evaluated point carries the same seed. -/
theorem seed_uniform_witness :
    ((⟨"f1Macro", Mode.classification, 100, 1000, 10, 2, 1, 64,
        some [("n_estimators", PVal.int 32)], some 7, Option.none,
        Option.none, Option.none, []⟩ : ForestCV).param_grid = Option.none ∧
      (⟨"f1Macro", Mode.classification, 100, 1000, 10, 2, 1, 64,
        some [("n_estimators", PVal.int 32)], some 7, Option.none,
        Option.none, Option.none, []⟩ : ForestCV).random_seed = some 7 ∧
      ForestCV.fit
        (⟨"f1Macro", Mode.classification, 100, 1000, 10, 2, 1, 64,
          some [("n_estimators", PVal.int 32)], some 7, Option.none,
          Option.none, Option.none, []⟩ : ForestCV) (fun _ => (1 : ℚ)) =
        .ok (⟨"f1Macro", Mode.classification, 100, 1000, 10, 2, 1, 64,
          some [("n_estimators", PVal.int 32), ("random_state", PVal.int 7)],
          some 7, Option.none, Option.none, Option.none,
          [[("n_estimators", PVal.int 32), ("random_state", PVal.int 7)],
           [("n_estimators", PVal.int 32), ("random_state", PVal.int 7)]]⟩ :
          ForestCV)) ∧
    (∀ r ∈ [[("min_samples_leaf", PVal.int 2)]].map
        (ForestCV.eval_grid_point (some 7) (fun _ => (1 : ℚ))),
      getKey r.params "random_state" = some (seedPV (some 7))) ∧
    (∀ mp ∈ (⟨"f1Macro", Mode.classification, 100, 1000, 10, 2, 1, 64,
        some [("n_estimators", PVal.int 32), ("random_state", PVal.int 7)],
        some 7, Option.none, Option.none, Option.none,
        [[("n_estimators", PVal.int 32), ("random_state", PVal.int 7)],
         [("n_estimators", PVal.int 32), ("random_state", PVal.int 7)]]⟩ :
        ForestCV).models,
      getKey mp "random_state" = some (seedPV (some 7))) :=
  ⟨⟨rfl, rfl, by rfl⟩,
    seed_uniform (some 7) (fun _ => (1 : ℚ))
      [[("min_samples_leaf", PVal.int 2)]]
      (⟨"f1Macro", Mode.classification, 100, 1000, 10, 2, 1, 64,
        some [("n_estimators", PVal.int 32)], some 7, Option.none,
        Option.none, Option.none, []⟩ : ForestCV)
      (⟨"f1Macro", Mode.classification, 100, 1000, 10, 2, 1, 64,
        some [("n_estimators", PVal.int 32), ("random_state", PVal.int 7)],
        some 7, Option.none, Option.none, Option.none,
        [[("n_estimators", PVal.int 32), ("random_state", PVal.int 7)],
         [("n_estimators", PVal.int 32), ("random_state", PVal.int 7)]]⟩ :
        ForestCV)
      rfl rfl (by rfl)⟩

/-- C10.  On the no-search path `__init__` stores the caller's
hyperparameter dict itself (`self.params = hyperparams`, no copy), and
each `_fit` iteration executes `current_params['random_state'] =
self.random_seed` on that same dict object; the threaded dict state
shows that after `fit` the caller's dict has gained an appended
`random_state` entry holding the configured seed. -/
theorem fit_mutates_hyperparams (cm rm : List String) (tm : String)
    (subset final_subset verbose num_fits inner_jobs : Nat)
    (pg : Option (List Params)) (seed : Option Int) (h : Params) (n_jobs : Nat)
    (ef : Params → ℚ) (c c' : ForestCV)
    (hfresh : ∀ kv ∈ h, kv.1 ≠ "random_state")
    (hn : 1 ≤ num_fits)
    (hinit : ForestCV.init cm rm tm subset final_subset verbose num_fits
      inner_jobs false pg seed (some h) n_jobs = .ok c)
    (hfit : ForestCV.fit c ef = .ok c') :
    c.params = some h ∧
    c'.params = some (h ++ [("random_state", seedPV seed)]) ∧
    getKey (h ++ [("random_state", seedPV seed)]) "random_state" =
      some (seedPV seed) := by
  obtain ⟨_, _, hnum, hps, hseed, _, hpgf⟩ := init_ok_fields cm rm tm subset
    final_subset verbose num_fits inner_jobs false pg seed (some h) n_jobs c
    hinit
  have hpg := hpgf rfl
  refine ⟨hps, ?_, ?_⟩
  · unfold ForestCV.fit at hfit
    cases hloop : ForestCV.fitLoop ef c c.num_fits with
    | error e => rw [hloop] at hfit; exact absurd hfit (by simp)
    | ok pr =>
      obtain ⟨c2, ms⟩ := pr
      rw [hloop] at hfit
      simp only [Except.ok.injEq] at hfit
      subst hfit
      rw [hnum] at hloop
      cases num_fits with
      | zero => omega
      | succ n0 =>
        unfold ForestCV.fitLoop at hloop
        cases hstep : ForestCV.fitStep c ef with
        | error e => rw [hstep] at hloop; exact absurd hloop (by simp)
        | ok pr1 =>
          obtain ⟨c1, mp⟩ := pr1
          rw [hstep] at hloop
          dsimp only at hloop
          cases hloop2 : ForestCV.fitLoop ef c1 n0 with
          | error e => rw [hloop2] at hloop; exact absurd hloop (by simp)
          | ok pr2 =>
            obtain ⟨c2', ms'⟩ := pr2
            rw [hloop2] at hloop
            simp only [Except.ok.injEq, Prod.mk.injEq] at hloop
            obtain ⟨hc2, _⟩ := hloop
            obtain ⟨_, _, hb3, hb4, _, ps, hps2, hmp, hcp1⟩ :=
              fitStep_no_grid c c1 mp ef hpg hstep
            have hpseq : ps = h := by
              rw [hps] at hps2
              injection hps2 with hx
              exact hx.symm
            have hmp2 : mp = h ++ [("random_state", seedPV c.random_seed)] := by
              rw [hmp, hpseq]
              exact setKey_fresh h "random_state" (seedPV c.random_seed) hfresh
            have hfinal := fitLoop_no_grid_params ef h hfresh n0 c1 c2' ms' hb3
              (by rw [hcp1, hmp2, hb4]) hloop2
            show c2.params = some (h ++ [("random_state", seedPV seed)])
            rw [← hc2, hfinal, hb4, hseed]
  · have h1 : setKey h "random_state" (seedPV seed) =
        h ++ [("random_state", seedPV seed)] :=
      setKey_fresh h "random_state" (seedPV seed) hfresh
    rw [← h1]
    exact getKey_setKey_self h "random_state" (seedPV seed)

/-- Witness for C10: a caller dict `[("n_estimators", 8)]`, seed 3;
after construction and one fit the stored (caller-aliased) dict is
`[("n_estimators", 8), ("random_state", 3)]`. -/
theorem fit_mutates_hyperparams_witness :
    ((∀ kv ∈ [("n_estimators", PVal.int 8)], Prod.fst kv ≠ "random_state") ∧
      1 ≤ 1 ∧
      ForestCV.init ["accuracy"] [] "accuracy" 100 1000 10 1 1 false
        Option.none (some 3) (some [("n_estimators", PVal.int 8)]) 64 =
        .ok (⟨"accuracy", Mode.classification, 100, 1000, 10, 1, 1, 64,
          some [("n_estimators", PVal.int 8)], some 3, Option.none,
          Option.none, Option.none, []⟩ : ForestCV) ∧
      ForestCV.fit
        (⟨"accuracy", Mode.classification, 100, 1000, 10, 1, 1, 64,
          some [("n_estimators", PVal.int 8)], some 3, Option.none,
          Option.none, Option.none, []⟩ : ForestCV) (fun _ => (1 : ℚ)) =
        .ok (⟨"accuracy", Mode.classification, 100, 1000, 10, 1, 1, 64,
          some [("n_estimators", PVal.int 8), ("random_state", PVal.int 3)],
          some 3, Option.none, Option.none, Option.none,
          [[("n_estimators", PVal.int 8), ("random_state", PVal.int 3)]]⟩ :
          ForestCV)) ∧
    ((⟨"accuracy", Mode.classification, 100, 1000, 10, 1, 1, 64,
        some [("n_estimators", PVal.int 8)], some 3, Option.none,
        Option.none, Option.none, []⟩ : ForestCV).params =
      some [("n_estimators", PVal.int 8)] ∧
    (⟨"accuracy", Mode.classification, 100, 1000, 10, 1, 1, 64,
        some [("n_estimators", PVal.int 8), ("random_state", PVal.int 3)],
        some 3, Option.none, Option.none, Option.none,
        [[("n_estimators", PVal.int 8), ("random_state", PVal.int 3)]]⟩ :
        ForestCV).params =
      some ([("n_estimators", PVal.int 8)] ++
        [("random_state", seedPV (some 3))]) ∧
    getKey ([("n_estimators", PVal.int 8)] ++
        [("random_state", seedPV (some 3))]) "random_state" =
      some (seedPV (some 3))) :=
  ⟨⟨by decide, by decide, by rfl, by rfl⟩,
    fit_mutates_hyperparams ["accuracy"] [] "accuracy" 100 1000 10 1 1
      Option.none (some 3) [("n_estimators", PVal.int 8)] 64
      (fun _ => (1 : ℚ))
      (⟨"accuracy", Mode.classification, 100, 1000, 10, 1, 1, 64,
        some [("n_estimators", PVal.int 8)], some 3, Option.none,
        Option.none, Option.none, []⟩ : ForestCV)
      (⟨"accuracy", Mode.classification, 100, 1000, 10, 1, 1, 64,
        some [("n_estimators", PVal.int 8), ("random_state", PVal.int 3)],
        some 3, Option.none, Option.none, Option.none,
        [[("n_estimators", PVal.int 8), ("random_state", PVal.int 3)]]⟩ :
        ForestCV)
      (by decide) (by decide) (by rfl) (by rfl)⟩

end Distil
